import Mathlib

/-!
Verification development for the conversation-flow synthesis engine
(`analyzeConversationFlow` and `generateMermaidDiagram` in `src/server.js`).

The JavaScript source is shallowly embedded: strings are Lean `String`
(a list of characters), dynamically-typed object fields that may be
absent are `Option String`, and JavaScript string truthiness (absent or
empty means falsy) is the `truthy` predicate below.  Fields of the
generator's JSON output that the renderer never reads (`examples`,
`listenFor`, `nextActions`, `timeout`, `retryPrompt`) are omitted from
the node model; non-string JSON values in string-typed fields are
modelled as absent.  Case-insensitive matching is modelled by ASCII
lowercasing, and JavaScript `trim` by trimming the ASCII whitespace
characters space, tab, carriage return and newline.
-/

/-- One speech turn, as delivered by the transcription collaborator. -/
structure Utterance where
  speaker : String
  text : String
deriving DecidableEq

/-- Per-uploaded-file transcription result. -/
structure Transcription where
  filename : String
  text : String
  utterances : List Utterance
  language : String
deriving DecidableEq

/-- A conversational step of the flow graph, restricted to the fields the
renderer reads (`id`, `type`, `content`, `fullPrompt`) plus `speaker`. -/
structure Node where
  id : Option String
  type : Option String
  speaker : Option String
  content : Option String
  fullPrompt : Option String
deriving DecidableEq

/-- A transition of the flow graph. -/
structure Edge where
  «from» : Option String
  «to» : Option String
  condition : Option String
deriving DecidableEq

/-- The node/edge structure handed to the diagram renderer. -/
structure FlowData where
  nodes : List Node
  edges : List Edge
deriving DecidableEq

/-- The value returned by `analyzeConversationFlow`: the flow structure
plus the `mermaidDiagram` field, which one return path omits
(modelled as `none`). -/
structure FlowOutput where
  nodes : List Node
  edges : List Edge
  mermaidDiagram : Option String
deriving DecidableEq

/-- Outcome of one call to the text-generation collaborator. -/
inductive GenOutcome where
  | ok (content : String)
  | err
deriving DecidableEq

/-- JavaScript string truthiness for a possibly-absent string field:
`undefined` and `""` are falsy. -/
def truthy : Option String → Bool
  | none => false
  | some s => s != ""

/-- Characters replaced by the `/[\r\n\t]+/g` rule of the label sanitizer. -/
def isRNT (c : Char) : Bool := c = '\r' || c = '\n' || c = '\t'

/-- ASCII whitespace trimmed by `trim`. -/
def isWsChar (c : Char) : Bool := c = ' ' || c = '\t' || c = '\r' || c = '\n'

/-- Replace every maximal run of carriage returns, newlines and tabs by a
single space (the flag records whether we are inside such a run). -/
def collapseWsGo : Bool → List Char → List Char
  | _, [] => []
  | inRun, c :: rest =>
    if isRNT c then
      if inRun then collapseWsGo true rest else ' ' :: collapseWsGo true rest
    else c :: collapseWsGo false rest

/-- `text.replace(/[\r\n\t]+/g, ' ')` on the character list. -/
def collapseWs (cs : List Char) : List Char := collapseWsGo false cs

/-- Trim leading and trailing whitespace from a character list. -/
def trimCh (cs : List Char) : List Char :=
  ((cs.dropWhile isWsChar).reverse.dropWhile isWsChar).reverse

/-- The quote characters stripped by `.replace(/['"]/g, '')`. -/
def isQuoteChar (c : Char) : Bool := c = Char.ofNat 39 || c = '"'

/-- The fixed punctuation blacklist stripped from labels, prompts and
edge conditions. -/
def punctBlacklist : List Char := "`~!@#$%^&*()+=\x7b\x7d[]|\\:;<>?,./".data

/-- The shared sanitization chain: collapse newline/tab runs, strip
quotes, strip the punctuation blacklist, trim. -/
def sanitizeChars (cs : List Char) : List Char :=
  trimCh (((collapseWs cs).filter (fun c => !(isQuoteChar c))).filter
    (fun c => !(punctBlacklist.contains c)))

/-- Sanitization lifted to strings. -/
def sanitizeText (s : String) : String := String.mk (sanitizeChars s.data)

/-- The positional safe identifier assigned to the node at `i` in the
original node array. -/
def safeId (i : Nat) : String := "N" ++ toString i

/-- Display label computed from a node's `content`: literal `"Node"` when
absent or empty, sanitized, truncated to 27 characters plus `"..."` when
longer than 30. -/
def mkMainLabel (content : Option String) : String :=
  let base : String :=
    match content with
    | some s => if s = "" then "Node" else s
    | none => "Node"
  let m := sanitizeChars base.data
  if 30 < m.length then String.mk (m.take 27) ++ "..." else String.mk m

/-- Secondary summary computed from a node's `fullPrompt`: first 60
characters sanitized, truncated to 47 plus `"..."` when longer than 50;
empty when `fullPrompt` is absent or empty. -/
def mkPromptSummary (fullPrompt : Option String) : String :=
  match fullPrompt with
  | none => ""
  | some s =>
    if s = "" then ""
    else
      let t := sanitizeChars (s.data.take 60)
      if 50 < t.length then String.mk (t.take 47) ++ "..." else String.mk t

/-- The node body: stadium shape for `greeting`/`farewell`, rhombus for
`decision`, rectangle otherwise (carrying the prompt summary when one is
present). -/
def nodeCore (n : Node) (sid : String) : String :=
  if n.type = some "greeting" ∨ n.type = some "farewell" then
    "    " ++ sid ++ "([\"" ++ mkMainLabel n.content ++ "\"])"
  else if n.type = some "decision" then
    "    " ++ sid ++ "\x7b\"" ++ mkMainLabel n.content ++ "\"\x7d"
  else
    if mkPromptSummary n.fullPrompt = "" then
      "    " ++ sid ++ "[\"" ++ mkMainLabel n.content ++ "\"]"
    else
      "    " ++ sid ++ "[\"" ++ mkMainLabel n.content ++ "<br/><small>" ++
        mkPromptSummary n.fullPrompt ++ "</small>\"]"

/-- The style class attached to a node, empty for unknown types. -/
def nodeCls (n : Node) : String :=
  if n.type = some "greeting" then "greeting"
  else if n.type = some "question" then "question"
  else if n.type = some "decision" then "decision"
  else if n.type = some "confirmation" then "confirmation"
  else if n.type = some "farewell" then "farewell"
  else ""

/-- One node declaration line of the diagram. -/
def nodeLine (n : Node) (sid : String) : String :=
  (if nodeCls n = "" then nodeCore n sid
   else nodeCore n sid ++ ":::" ++ nodeCls n) ++ "\n"

/-- Lookup in the original-id-to-safe-id table.  The table is built by
`Map.set`, so a later binding of the same key overwrites an earlier one:
the lookup finds the last binding. -/
def amGet (m : List (String × String)) (key : String) : Option String :=
  (m.reverse.find? (fun p => p.1 == key)).map (fun p => p.2)

/-- First renderer pass, id-remapping table: nodes with a truthy `id` are
recorded as original id to `"N{index}"`, `index` counting positions in the
original array starting at `k`. -/
def mkNodeMapFrom (k : Nat) : List Node → List (String × String)
  | [] => []
  | n :: rest =>
    if truthy n.id then (n.id.getD "", safeId k) :: mkNodeMapFrom (k + 1) rest
    else mkNodeMapFrom (k + 1) rest

/-- The id-remapping table of a node array. -/
def mkNodeMap (ns : List Node) : List (String × String) := mkNodeMapFrom 0 ns

/-- First renderer pass, retained nodes: each node with a truthy `id`,
paired with its position in the original array (positions from `k`). -/
def validNodesFrom (k : Nat) : List Node → List (Nat × Node)
  | [] => []
  | n :: rest =>
    if truthy n.id then (k, n) :: validNodesFrom (k + 1) rest
    else validNodesFrom (k + 1) rest

/-- The retained nodes of a node array, with their original positions. -/
def validNodes (ns : List Node) : List (Nat × Node) := validNodesFrom 0 ns

/-- Sanitized, 20-character-truncated edge condition label. -/
def condLabel (c : String) : String := String.mk (sanitizeChars (c.data.take 20))

/-- One edge line of the diagram: skipped when `from` or `to` is falsy or
when either endpoint is missing from the id table; labelled when a truthy
`condition` is present. -/
def edgeLine (m : List (String × String)) (e : Edge) : String :=
  if truthy e.«from» && truthy e.«to» then
    match amGet m (e.«from».getD ""), amGet m (e.«to».getD "") with
    | some fromId, some toId =>
      (match e.condition with
        | some c =>
          if c = "" then "    " ++ fromId ++ " --> " ++ toId ++ "\n"
          else "    " ++ fromId ++ " -->|" ++ condLabel c ++ "| " ++ toId ++ "\n"
        | none => "    " ++ fromId ++ " --> " ++ toId ++ "\n")
    | _, _ => ""
  else ""

/-- The six fixed style-class declaration lines. -/
def classDefs : String :=
  "    classDef default fill:#ffffff,stroke:#000000,stroke-width:2px,color:#000000\n" ++
  "    classDef greeting fill:#f8f8f8,stroke:#000000,stroke-width:3px,color:#000000\n" ++
  "    classDef question fill:#ffffff,stroke:#000000,stroke-width:2px,stroke-dasharray: 5 5,color:#000000\n" ++
  "    classDef decision fill:#f0f0f0,stroke:#000000,stroke-width:2px,color:#000000\n" ++
  "    classDef confirmation fill:#ffffff,stroke:#000000,stroke-width:3px,color:#000000\n" ++
  "    classDef farewell fill:#e8e8e8,stroke:#000000,stroke-width:2px,color:#000000\n"

/-- The fixed prefix of every non-placeholder diagram. -/
def diagramHeader : String := "graph TD\n" ++ classDefs ++ "\n"

/-- The fixed single-placeholder diagram. -/
def emptyDiagram : String := "graph TD\n    Start[Start]"

/-- Concatenation of the emitted lines, mirroring the `+=` accumulation. -/
def concatAll : List String → String
  | [] => ""
  | s :: rest => s ++ concatAll rest

/-- The diagram renderer `generateMermaidDiagram`: placeholder for an
empty node array, header and style classes, node declarations for the
retained nodes, edge lines, and the final zero-retained-nodes override. -/
def generateMermaidDiagram (fd : FlowData) : String :=
  if fd.nodes.length = 0 then emptyDiagram
  else
    let m := mkNodeMap fd.nodes
    let vns := validNodes fd.nodes
    let d := diagramHeader ++
      concatAll (vns.map (fun p => nodeLine p.2 (safeId p.1))) ++
      concatAll (fd.edges.map (edgeLine m))
    if vns.length = 0 then emptyDiagram else d

/-- All utterances collected across the transcriptions, file order then
per-file order (`transcriptions.flatMap(t => t.utterances || [])`). -/
def allUtterances (ts : List Transcription) : List Utterance :=
  ts.flatMap (fun t => t.utterances)

/-- More than one distinct speaker label among the collected utterances
(`new Set(allUtterances.map(u => u.speaker)).size > 1`, only evaluated
when utterances exist). -/
def hasSpeakerSeparation (ts : List Transcription) : Bool :=
  let au := allUtterances ts
  if au.length > 0 then decide (1 < ((au.map Utterance.speaker).eraseDups).length)
  else false

/-- The normalizer's conversation text: one `"Speaker {speaker}: {text}"`
line per utterance when speaker separation exists, otherwise the full
transcript texts joined by a blank line. -/
def buildTranscriptText (ts : List Transcription) : String :=
  let au := allUtterances ts
  if au.length > 0 && hasSpeakerSeparation ts then
    String.intercalate "\n"
      (au.map (fun u => "Speaker " ++ u.speaker ++ ": " ++ u.text))
  else String.intercalate "\n\n" (ts.map Transcription.text)

/-- Sentence-terminal punctuation of the `/[.?!]+/` splitter. -/
def isTermCh (c : Char) : Bool := c = '.' || c = '?' || c = '!'

/-- Split on maximal runs of sentence-terminal punctuation; the flag
records whether the previous character belonged to such a run. -/
def splitRunsGo (inRun : Bool) (acc : List Char) : List Char → List (List Char)
  | [] => [acc.reverse]
  | c :: rest =>
    if isTermCh c then
      if inRun then splitRunsGo true acc rest
      else acc.reverse :: splitRunsGo true [] rest
    else splitRunsGo false (c :: acc) rest

/-- `text.split(/[.?!]+/).map(s => s.trim()).filter(s => s.length > 0)`. -/
def splitSentences (text : String) : List String :=
  (((splitRunsGo false [] text.data).map
    (fun cs => String.mk (trimCh cs))).filter (fun s => s.length > 0))

/-- ASCII-only lowercasing, modelling the `/i` regex flag. -/
def lowerAscii (s : String) : String := String.mk (s.data.map Char.toLower)

/-- `pat` is a prefix of `cs` (both as character lists). -/
def isPrefixCh : List Char → List Char → Bool
  | [], _ => true
  | _ :: _, [] => false
  | p :: ps, c :: cs => p == c && isPrefixCh ps cs

/-- `pat` occurs as a contiguous substring of `cs`. -/
def containsCh (pat : List Char) : List Char → Bool
  | [] => isPrefixCh pat []
  | c :: rest => isPrefixCh pat (c :: rest) || containsCh pat rest

/-- Substring occurrence on strings. -/
def containsStr (hay pat : String) : Bool := containsCh pat.data hay.data

/-- Matching of `this is.*from` inside one newline-free segment: an
occurrence of `"this is"` followed, at or after its end, by `"from"`. -/
def segTIF : List Char → Bool
  | [] => false
  | c :: rest =>
    (isPrefixCh "this is".data (c :: rest) &&
      containsCh "from".data ((c :: rest).drop 7)) || segTIF rest

/-- Single-character splitter used to cut a string into its maximal
newline-free segments (a regex `.` does not cross `\r` or `\n`). -/
def splitChars (p : Char → Bool) : List Char → List (List Char)
  | [] => [[]]
  | c :: rest =>
    let r := splitChars p rest
    if p c then [] :: r
    else
      match r with
      | [] => [[c]]
      | h :: t => (c :: h) :: t

/-- The regex `/this is.*from/i` on an already-lowercased string. -/
def thisIsFromMatch (ls : String) : Bool :=
  (splitChars (fun c => c = '\n' || c = '\r') ls.data).any segTIF

/-- The bracket alternatives `[é|e]` of the source regexes match any one
of the three listed characters; this builds the concrete substrings. -/
def bracketCombos (pre : String) (alts1 : List String) (mid : String)
    (alts2 : List String) (suf : String) : List String :=
  alts1.flatMap (fun a => alts2.map (fun b => pre ++ a ++ mid ++ b ++ suf))

/-- The agent-indicating patterns of the role-inference heuristic. -/
def agentPatternMatch (s : String) : Bool :=
  let ls := lowerAscii s
  containsStr ls "hablo de parte de" ||
  containsStr ls "me comunico con" ||
  containsStr ls "le llamo por" ||
  (bracketCombos "dejar" ["é", "|", "e"] " registro" [""] "").any
    (fun p => containsStr ls p) ||
  containsStr ls "necesita ayuda" ||
  containsStr ls "puede realizar" ||
  containsStr ls "calling from" ||
  thisIsFromMatch ls ||
  containsStr ls "can help you"

/-- The customer-indicating patterns of the role-inference heuristic. -/
def customerPatternMatch (s : String) : Bool :=
  let ls := lowerAscii s
  (bracketCombos "s" ["í", "|", "i"] " se" ["ñ", "|", "n"] "orita").any
    (fun p => containsStr ls p) ||
  (bracketCombos "s" ["í", "|", "i"] " se" ["ñ", "|", "n"] "or").any
    (fun p => containsStr ls p) ||
  containsStr ls "un gusto" ||
  containsStr ls "okay" ||
  containsStr ls "yes" ||
  containsStr ls "no problem"

/-- Speaker label of one fragment: agent patterns first, then customer
patterns, then alternation by fragment index. -/
def inferSpeaker (sentence : String) (index : Nat) : String :=
  if agentPatternMatch sentence then "Agent"
  else if customerPatternMatch sentence then "Customer"
  else if index % 2 = 0 then "Agent" else "Customer"

/-- Reconstructed conversation: each retained fragment labelled and
re-joined as `"{Label}: {fragment}"` lines; the text is left unchanged
when no fragments remain. -/
def inferRoles (text : String) : String :=
  let sentences := splitSentences text
  if sentences.length > 0 then
    String.intercalate "\n"
      (sentences.enum.map (fun p => inferSpeaker p.2 p.1 ++ ": " ++ p.2))
  else text

/-- The transcript text used downstream: role inference runs only when
there is no speaker separation and the text is non-empty. -/
def normalizedText (ts : List Transcription) : String :=
  let text := buildTranscriptText ts
  if hasSpeakerSeparation ts = false ∧ text ≠ "" then inferRoles text else text

/-- JSON values, numbers kept as their raw source text (no claim inspects
a numeric value). -/
inductive Json where
  | null
  | bool (b : Bool)
  | num (raw : String)
  | str (s : String)
  | arr (elems : List Json)
  | obj (members : List (String × Json))

/-- JSON whitespace. -/
def jsonWs (c : Char) : Bool := c = ' ' || c = '\t' || c = '\n' || c = '\r'

/-- The left and right brace characters. -/
def lbrace : Char := Char.ofNat 123

/-- The right brace character. -/
def rbrace : Char := Char.ofNat 125

/-- Single-character JSON string escapes. -/
def escChar (c : Char) : Option Char :=
  if c = '"' then some '"'
  else if c = '\\' then some '\\'
  else if c = '/' then some '/'
  else if c = 'b' then some (Char.ofNat 8)
  else if c = 'f' then some (Char.ofNat 12)
  else if c = 'n' then some '\n'
  else if c = 'r' then some '\r'
  else if c = 't' then some '\t'
  else none

/-- Hexadecimal digit value. -/
def hexVal (c : Char) : Option Nat :=
  if '0' ≤ c ∧ c ≤ '9' then some (c.toNat - 48)
  else if 'a' ≤ c ∧ c ≤ 'f' then some (c.toNat - 87)
  else if 'A' ≤ c ∧ c ≤ 'F' then some (c.toNat - 55)
  else none

/-- Body of a JSON string after the opening quote: returns the decoded
characters and the remainder after the closing quote. -/
def parseStringBody : Nat → List Char → Option (List Char × List Char)
  | 0, _ => none
  | _ + 1, [] => none
  | fuel + 1, c :: rest =>
    if c = '"' then some ([], rest)
    else if c = '\\' then
      match rest with
      | [] => none
      | e :: rest2 =>
        if e = 'u' then
          match rest2 with
          | h1 :: h2 :: h3 :: h4 :: rest3 =>
            match hexVal h1, hexVal h2, hexVal h3, hexVal h4 with
            | some v1, some v2, some v3, some v4 =>
              (parseStringBody fuel rest3).map
                (fun p => (Char.ofNat (((v1 * 16 + v2) * 16 + v3) * 16 + v4) :: p.1, p.2))
            | _, _, _, _ => none
          | _ => none
        else
          match escChar e with
          | some ch => (parseStringBody fuel rest2).map (fun p => (ch :: p.1, p.2))
          | none => none
    else if c.toNat < 32 then none
    else (parseStringBody fuel rest).map (fun p => (c :: p.1, p.2))

/-- Integer part of a JSON number: `0`, or a nonzero digit followed by
digits (leading zeros are a syntax error). -/
def parseIntPart : List Char → Option (List Char × List Char)
  | [] => none
  | c :: rest =>
    if c = '0' then some (['0'], rest)
    else if c.isDigit then
      some (c :: rest.takeWhile Char.isDigit, rest.dropWhile Char.isDigit)
    else none

/-- Optional fraction part `.digits`. -/
def parseFracPart (cs : List Char) : Option (List Char × List Char) :=
  match cs with
  | '.' :: rest =>
    let ds := rest.takeWhile Char.isDigit
    if ds.length = 0 then none
    else some ('.' :: ds, rest.dropWhile Char.isDigit)
  | _ => some ([], cs)

/-- Optional exponent part `e|E (+|-)? digits`. -/
def parseExpPart (cs : List Char) : Option (List Char × List Char) :=
  match cs with
  | c :: rest =>
    if c = 'e' ∨ c = 'E' then
      let (sgn, rest2) :=
        match rest with
        | s :: r => if s = '+' ∨ s = '-' then ([s], r) else (([] : List Char), rest)
        | [] => ([], rest)
      let ds := rest2.takeWhile Char.isDigit
      if ds.length = 0 then none
      else some (c :: (sgn ++ ds), rest2.dropWhile Char.isDigit)
    else some ([], cs)
  | [] => some ([], cs)

/-- A JSON number, returned as its raw text. -/
def parseNumber (cs : List Char) : Option (List Char × List Char) :=
  let (neg, cs1) :=
    match cs with
    | '-' :: r => ((['-'] : List Char), r)
    | _ => ([], cs)
  match parseIntPart cs1 with
  | none => none
  | some (ip, rest1) =>
    match parseFracPart rest1 with
    | none => none
    | some (fp, rest2) =>
      match parseExpPart rest2 with
      | none => none
      | some (ep, rest3) => some (neg ++ ip ++ fp ++ ep, rest3)

mutual

/-- One JSON value (leading whitespace allowed), with explicit fuel. -/
def parseValue : Nat → List Char → Option (Json × List Char)
  | 0, _ => none
  | fuel + 1, cs =>
    match cs.dropWhile jsonWs with
    | [] => none
    | c :: rest =>
      if c = '"' then
        (parseStringBody (rest.length + 1) rest).map
          (fun p => (Json.str (String.mk p.1), p.2))
      else if c = '-' ∨ c.isDigit then
        (parseNumber (c :: rest)).map (fun p => (Json.num (String.mk p.1), p.2))
      else if c = 't' then
        if isPrefixCh "rue".data rest then some (Json.bool true, rest.drop 3) else none
      else if c = 'f' then
        if isPrefixCh "alse".data rest then some (Json.bool false, rest.drop 4) else none
      else if c = 'n' then
        if isPrefixCh "ull".data rest then some (Json.null, rest.drop 3) else none
      else if c = '[' then
        match rest.dropWhile jsonWs with
        | ']' :: r => some (Json.arr [], r)
        | other => (parseElems fuel other).map (fun p => (Json.arr p.1, p.2))
      else if c = lbrace then
        match rest.dropWhile jsonWs with
        | r :: rs =>
          if r = rbrace then some (Json.obj [], rs)
          else (parseMembers fuel (r :: rs)).map (fun p => (Json.obj p.1, p.2))
        | [] => none
      else none

/-- Comma-separated array elements up to the closing bracket. -/
def parseElems : Nat → List Char → Option (List Json × List Char)
  | 0, _ => none
  | fuel + 1, cs =>
    match parseValue fuel cs with
    | none => none
    | some (v, rest) =>
      match rest.dropWhile jsonWs with
      | ']' :: r => some ([v], r)
      | ',' :: r =>
        (parseElems fuel r).map (fun p => (v :: p.1, p.2))
      | _ => none

/-- Comma-separated object members up to the closing brace. -/
def parseMembers : Nat → List Char → Option (List (String × Json) × List Char)
  | 0, _ => none
  | fuel + 1, cs =>
    match cs.dropWhile jsonWs with
    | c :: rest =>
      if c = '"' then
        match parseStringBody (rest.length + 1) rest with
        | none => none
        | some (key, rest1) =>
          match rest1.dropWhile jsonWs with
          | ':' :: rest2 =>
            match parseValue fuel rest2 with
            | none => none
            | some (v, rest3) =>
              match rest3.dropWhile jsonWs with
              | r :: rs =>
                if r = rbrace then some ([(String.mk key, v)], rs)
                else if r = ',' then
                  (parseMembers fuel rs).map (fun p => ((String.mk key, v) :: p.1, p.2))
                else none
              | [] => none
          | _ => none
      else none
    | [] => none

end

/-- `JSON.parse`: one value, surrounded only by whitespace. -/
def jsonParse (s : String) : Option Json :=
  match parseValue (s.data.length * 2 + 4) s.data with
  | some (j, rest) => if rest.dropWhile jsonWs = [] then some j else none
  | none => none

/-- `messageContent.match(/\x7b[\s\S]*\x7d/)`: the substring from the
first left brace to the last right brace following it, when both exist. -/
def extractBraces (s : String) : Option String :=
  let rest := s.data.dropWhile (fun c => c != lbrace)
  let bodyRev := rest.reverse.dropWhile (fun d => d != rbrace)
  if rest.isEmpty then none
  else if bodyRev.isEmpty then none
  else some (String.mk bodyRev.reverse)

/-- Lookup of an object member; `JSON.parse` keeps the last of duplicate
keys, so the last binding wins. -/
def objGet (kvs : List (String × Json)) (k : String) : Option Json :=
  (kvs.reverse.find? (fun p => p.1 == k)).map (fun p => p.2)

/-- The string value of a JSON value, when it is a string. -/
def asStr : Json → Option String
  | .str s => some s
  | _ => none

/-- A node of the parsed flow data (non-object array entries carry no
fields and are later skipped for lack of an id). -/
def jsonNode (j : Json) : Node :=
  match j with
  | .obj kvs =>
    ⟨(objGet kvs "id").bind asStr, (objGet kvs "type").bind asStr,
     (objGet kvs "speaker").bind asStr, (objGet kvs "content").bind asStr,
     (objGet kvs "fullPrompt").bind asStr⟩
  | _ => ⟨none, none, none, none, none⟩

/-- An edge of the parsed flow data. -/
def jsonEdge (j : Json) : Edge :=
  match j with
  | .obj kvs =>
    ⟨(objGet kvs "from").bind asStr, (objGet kvs "to").bind asStr,
     (objGet kvs "condition").bind asStr⟩
  | _ => ⟨none, none, none⟩

/-- The flow structure carried by a parsed JSON value; a missing or
non-array `nodes`/`edges` member behaves like an empty one. -/
def jsonToFlowData (j : Json) : FlowData :=
  match j with
  | .obj kvs =>
    ⟨(match objGet kvs "nodes" with
      | some (.arr xs) => xs.map jsonNode
      | _ => []),
     (match objGet kvs "edges" with
      | some (.arr xs) => xs.map jsonEdge
      | _ => [])⟩
  | _ => ⟨[], []⟩

/-- The two-stage parse of the generator's text: direct parse, then parse
of the first-brace-to-last-brace substring; `none` means both failed. -/
def parseFlowData (content : String) : Option FlowData :=
  match jsonParse content with
  | some j => some (jsonToFlowData j)
  | none =>
    match extractBraces content with
    | some sub => (jsonParse sub).map jsonToFlowData
    | none => none

/-- Content of the first successful generator attempt: the fallback model
is only consulted when the primary attempt fails. -/
def genContent : GenOutcome → GenOutcome → Option String
  | .ok c, _ => some c
  | .err, .ok c => some c
  | .err, .err => none

/-- The fixed 3-node fallback FlowGraph returned when all parsing fails. -/
def fallbackFlowData : FlowData :=
  ⟨[⟨some "node1", some "greeting", some "agent", some "Greeting",
      some "Start the conversation with a greeting"⟩,
    ⟨some "node2", some "question", some "agent", some "Main Topic",
      some "Discuss the main topic"⟩,
    ⟨some "node3", some "farewell", some "agent", some "Closing",
      some "End the conversation"⟩],
   [⟨some "node1", some "node2", none⟩, ⟨some "node2", some "node3", none⟩]⟩

/-- The parse-failure return value: the fixed 3-node fallback FlowGraph,
returned without any `mermaidDiagram` field. -/
def fallbackFlowOutput : FlowOutput :=
  ⟨fallbackFlowData.nodes, fallbackFlowData.edges, none⟩

/-- The empty-transcript early return. -/
def noTranscriptOutput : FlowOutput :=
  ⟨[], [], some "graph TD\n    Start[No transcript available]"⟩

/-- The single error node of the catch-all error flow. -/
def errorFlowOutput : FlowOutput :=
  ⟨[⟨some "error", some "greeting", some "agent", some "Error Processing",
      some "An error occurred processing the conversation. Please try again."⟩],
   [], some "graph TD\n    Error[Error Processing Conversation]"⟩

/-- Handling of a successful generator response: a parsed flow is
rendered and returned together with its diagram; total parse failure
returns the fixed 3-node fallback, without a diagram field. -/
def interpretContent (content : String) : FlowOutput :=
  match parseFlowData content with
  | some fd => ⟨fd.nodes, fd.edges, some (generateMermaidDiagram fd)⟩
  | none => fallbackFlowOutput

/-- `analyzeConversationFlow`, parameterized by the outcomes of the
primary and fallback generator calls: empty-transcript early return;
catch-all error flow when both generator calls fail; otherwise the
two-stage parse, whose success is rendered and returned with a diagram
and whose failure returns the fixed 3-node fallback without one. -/
def analyzeConversationFlow (ts : List Transcription)
    (primary fallbackGen : GenOutcome) : FlowOutput :=
  let text := buildTranscriptText ts
  if text = "" then noTranscriptOutput
  else
    match genContent primary fallbackGen with
    | none => errorFlowOutput
    | some content => interpretContent content

theorem strAppend_data (a b : String) : (a ++ b).data = a.data ++ b.data := by
  cases a
  cases b
  rfl

theorem strLength_append (a b : String) : (a ++ b).length = a.length + b.length := by
  cases a
  cases b
  exact List.length_append _ _

theorem strMk_length (cs : List Char) : (String.mk cs).length = cs.length := rfl

theorem str_ne_empty_of_length (s : String) (h : 0 < s.length) : s ≠ "" := by
  intro he
  rw [he] at h
  simp [String.length] at h

theorem strEmpty_append (s : String) : "" ++ s = s := by
  cases s
  rfl

theorem strAppend_assoc (a b c : String) : a ++ b ++ c = a ++ (b ++ c) := by
  cases a
  cases b
  cases c
  exact congrArg String.mk (List.append_assoc _ _ _)

theorem concatAll_append (l1 l2 : List String) :
    concatAll (l1 ++ l2) = concatAll l1 ++ concatAll l2 := by
  induction l1 with
  | nil => exact (strEmpty_append _).symm
  | cons s rest ih =>
    show s ++ concatAll (rest ++ l2) = s ++ concatAll rest ++ concatAll l2
    rw [ih, strAppend_assoc]

theorem find?_append {α : Type} (p : α → Bool) (l1 l2 : List α) :
    (l1 ++ l2).find? p =
      (match l1.find? p with
       | some a => some a
       | none => l2.find? p) := by
  induction l1 with
  | nil => simp
  | cons a rest ih =>
    cases h : p a with
    | true => simp [List.find?, h]
    | false => simp [List.find?, h, ih]

theorem amGet_cons_of_some (x : String × String) (m : List (String × String))
    (key v : String) (h : amGet m key = some v) : amGet (x :: m) key = some v := by
  unfold amGet at h ⊢
  rw [List.reverse_cons, find?_append]
  cases hf : m.reverse.find? (fun p => p.1 == key) with
  | none => rw [hf] at h; simp at h
  | some a => rw [hf] at h; simpa using h

theorem amGet_cons_of_none (x : String × String) (m : List (String × String))
    (key : String) (h : amGet m key = none) :
    amGet (x :: m) key = (if x.1 = key then some x.2 else none) := by
  unfold amGet at h ⊢
  rw [List.reverse_cons, find?_append]
  cases hf : m.reverse.find? (fun p => p.1 == key) with
  | some a => rw [hf] at h; simp at h
  | none =>
    by_cases hx : x.1 = key
    · have hb : (x.1 == key) = true := beq_iff_eq.mpr hx
      simp [List.find?, hb, hx]
    · have hb : (x.1 == key) = false := beq_eq_false_iff_ne.mpr hx
      simp [List.find?, hb, hx]

theorem mem_validNodesFrom (k i : Nat) (m : Node) (ns : List Node) :
    (i, m) ∈ validNodesFrom k ns ↔
      ∃ d, i = k + d ∧ ns.get? d = some m ∧ truthy m.id = true := by
  induction ns generalizing k with
  | nil => simp [validNodesFrom]
  | cons n rest ih =>
    cases hn : truthy n.id with
    | true =>
      have hv : validNodesFrom k (n :: rest) = (k, n) :: validNodesFrom (k + 1) rest := by
        simp [validNodesFrom, hn]
      rw [hv]
      simp only [List.mem_cons, ih, Prod.mk.injEq]
      constructor
      · rintro (⟨h1, h2⟩ | ⟨d, hd, hget, ht⟩)
        · exact ⟨0, by omega, by simp [List.get?, h2], by rw [h2]; exact hn⟩
        · exact ⟨d + 1, by omega, by simpa [List.get?] using hget, ht⟩
      · rintro ⟨d, hd, hget, ht⟩
        cases d with
        | zero =>
          simp [List.get?] at hget
          exact Or.inl ⟨by omega, hget.symm⟩
        | succ d' =>
          exact Or.inr ⟨d', by omega, by simpa [List.get?] using hget, ht⟩
    | false =>
      have hv : validNodesFrom k (n :: rest) = validNodesFrom (k + 1) rest := by
        simp [validNodesFrom, hn]
      rw [hv]
      simp only [ih]
      constructor
      · rintro ⟨d, hd, hget, ht⟩
        exact ⟨d + 1, by omega, by simpa [List.get?] using hget, ht⟩
      · rintro ⟨d, hd, hget, ht⟩
        cases d with
        | zero =>
          simp [List.get?] at hget
          rw [← hget] at ht
          rw [ht] at hn
          cases hn
        | succ d' =>
          exact ⟨d', by omega, by simpa [List.get?] using hget, ht⟩

theorem validNodesFrom_nil_of_no_id (k : Nat) (ns : List Node)
    (h : ∀ n ∈ ns, truthy n.id = false) : validNodesFrom k ns = [] := by
  induction ns generalizing k with
  | nil => rfl
  | cons n rest ih =>
    have hn := h n (by simp)
    have hv : validNodesFrom k (n :: rest) = validNodesFrom (k + 1) rest := by
      simp [validNodesFrom, hn]
    rw [hv]
    exact ih (k + 1) (fun n' hn' => h n' (by simp [hn']))

theorem amGet_mkNodeMapFrom_some (k : Nat) (ns : List Node) (s v : String)
    (h : amGet (mkNodeMapFrom k ns) s = some v) :
    ∃ d m, ns.get? d = some m ∧ m.id = some s ∧ truthy m.id = true ∧
      v = safeId (k + d) := by
  induction ns generalizing k with
  | nil => simp [mkNodeMapFrom, amGet, List.find?] at h
  | cons n rest ih =>
    cases hn : truthy n.id with
    | true =>
      have hm : mkNodeMapFrom k (n :: rest) =
          (n.id.getD "", safeId k) :: mkNodeMapFrom (k + 1) rest := by
        simp [mkNodeMapFrom, hn]
      rw [hm] at h
      cases hr : amGet (mkNodeMapFrom (k + 1) rest) s with
      | some w =>
        rw [amGet_cons_of_some _ _ _ _ hr] at h
        obtain ⟨d, m, hget, hid, ht, hv⟩ := ih (k + 1) (hr.trans h)
        refine ⟨d + 1, m, by simpa [List.get?] using hget, hid, ht, ?_⟩
        rw [hv]
        congr 1
        omega
      | none =>
        rw [amGet_cons_of_none _ _ _ hr] at h
        by_cases hk : n.id.getD "" = s
        · rw [if_pos hk] at h
          have hv : v = safeId k := (Option.some.inj h).symm
          refine ⟨0, n, by simp [List.get?], ?_, hn, by rw [hv]; congr 1⟩
          cases hid : n.id with
          | none => rw [hid] at hn; simp [truthy] at hn
          | some s' =>
            rw [hid] at hk
            simp only [Option.getD] at hk
            rw [hk]
        · rw [if_neg hk] at h
          cases h
    | false =>
      have hm : mkNodeMapFrom k (n :: rest) = mkNodeMapFrom (k + 1) rest := by
        simp [mkNodeMapFrom, hn]
      rw [hm] at h
      obtain ⟨d, m, hget, hid, ht, hv⟩ := ih (k + 1) h
      refine ⟨d + 1, m, by simpa [List.get?] using hget, hid, ht, ?_⟩
      rw [hv]
      congr 1
      omega

theorem dropWhile_head_not (p : Char → Bool) (l : List Char) (c : Char)
    (cs : List Char) (h : l.dropWhile p = c :: cs) : p c = false := by
  induction l with
  | nil => simp [List.dropWhile] at h
  | cons a rest ih =>
    rw [List.dropWhile_cons] at h
    cases hpa : p a with
    | true => rw [hpa] at h; simp at h; exact ih h
    | false => rw [hpa] at h; simp at h; rw [← h.1]; exact hpa

theorem exists_suffix_extend (a x y : String) (h : ∃ r, x = a ++ r) :
    ∃ r, x ++ y = a ++ r := by
  obtain ⟨r, hr⟩ := h
  exact ⟨r ++ y, by rw [hr, strAppend_assoc]⟩

theorem nodeCore_starts (n : Node) (sid : String) :
    ∃ r, nodeCore n sid = ("    " ++ sid) ++ r := by
  unfold nodeCore
  by_cases h1 : n.type = some "greeting" ∨ n.type = some "farewell"
  · rw [if_pos h1]
    exact exists_suffix_extend _ _ _ (exists_suffix_extend _ _ _ ⟨_, rfl⟩)
  · rw [if_neg h1]
    by_cases h2 : n.type = some "decision"
    · rw [if_pos h2]
      exact exists_suffix_extend _ _ _ (exists_suffix_extend _ _ _ ⟨_, rfl⟩)
    · rw [if_neg h2]
      by_cases h3 : mkPromptSummary n.fullPrompt = ""
      · rw [if_pos h3]
        exact exists_suffix_extend _ _ _ (exists_suffix_extend _ _ _ ⟨_, rfl⟩)
      · rw [if_neg h3]
        exact exists_suffix_extend _ _ _ (exists_suffix_extend _ _ _
          (exists_suffix_extend _ _ _ (exists_suffix_extend _ _ _ ⟨_, rfl⟩)))

theorem nodeLine_starts (n : Node) (sid : String) :
    ∃ r, nodeLine n sid = ("    " ++ sid) ++ r := by
  unfold nodeLine
  apply exists_suffix_extend
  by_cases hc : nodeCls n = ""
  · rw [if_pos hc]
    exact nodeCore_starts n sid
  · rw [if_neg hc]
    exact exists_suffix_extend _ _ _ (exists_suffix_extend _ _ _
      (nodeCore_starts n sid))

set_option maxRecDepth 8000 in
theorem generateMermaidDiagram_ne_empty (fd : FlowData) :
    generateMermaidDiagram fd ≠ "" := by
  have hE : emptyDiagram ≠ "" := by decide
  simp only [generateMermaidDiagram]
  by_cases h0 : fd.nodes.length = 0
  · rw [if_pos h0]; exact hE
  · rw [if_neg h0]
    by_cases h1 : (validNodes fd.nodes).length = 0
    · rw [if_pos h1]; exact hE
    · rw [if_neg h1]
      apply str_ne_empty_of_length
      rw [strLength_append, strLength_append]
      have hdh : 0 < diagramHeader.length := by decide
      omega

theorem amGet_mkNodeMapFrom_none (k : Nat) (ns : List Node) (s : String)
    (h : ∀ m ∈ ns, m.id ≠ some s) : amGet (mkNodeMapFrom k ns) s = none := by
  induction ns generalizing k with
  | nil => rfl
  | cons n rest ih =>
    have htail := ih (k + 1) (fun m hm => h m (by simp [hm]))
    cases hn : truthy n.id with
    | false =>
      have hmp : mkNodeMapFrom k (n :: rest) = mkNodeMapFrom (k + 1) rest := by
        simp [mkNodeMapFrom, hn]
      rw [hmp]
      exact htail
    | true =>
      have hmp : mkNodeMapFrom k (n :: rest) =
          (n.id.getD "", safeId k) :: mkNodeMapFrom (k + 1) rest := by
        simp [mkNodeMapFrom, hn]
      rw [hmp, amGet_cons_of_none _ _ _ htail]
      have hne : ¬(n.id.getD "" = s) := by
        intro heq
        cases hid : n.id with
        | none => rw [hid] at hn; cases hn
        | some s' =>
          rw [hid] at heq
          simp only [Option.getD] at heq
          exact h n (by simp) (by rw [hid, heq])
      rw [if_neg hne]

theorem amGet_mkNodeMapFrom_last (k j : Nat) (ns : List Node) (m : Node)
    (s : String) (hj : ns.get? j = some m) (hm : m.id = some s) (hs : s ≠ "")
    (hlast : ∀ d m', ns.get? d = some m' → j < d → m'.id ≠ some s) :
    amGet (mkNodeMapFrom k ns) s = some (safeId (k + j)) := by
  induction ns generalizing k j with
  | nil => simp [List.get?] at hj
  | cons n rest ih =>
    cases j with
    | zero =>
      simp [List.get?] at hj
      have hn : truthy n.id = true := by
        rw [hj, hm]
        simp [truthy, bne_iff_ne.mpr hs]
      have hmp : mkNodeMapFrom k (n :: rest) =
          (n.id.getD "", safeId k) :: mkNodeMapFrom (k + 1) rest := by
        simp [mkNodeMapFrom, hn]
      have htail : amGet (mkNodeMapFrom (k + 1) rest) s = none := by
        apply amGet_mkNodeMapFrom_none
        intro m' hm'
        obtain ⟨d, hd⟩ := List.mem_iff_get?.mp hm'
        exact hlast (d + 1) m' (by simpa [List.get?] using hd) (by omega)
      rw [hmp, amGet_cons_of_none _ _ _ htail]
      have hk : n.id.getD "" = s := by rw [hj, hm]; rfl
      rw [if_pos hk]
      rfl
    | succ j' =>
      have hj2 : rest.get? j' = some m := by simpa [List.get?] using hj
      have hlast2 : ∀ d m', rest.get? d = some m' → j' < d → m'.id ≠ some s :=
        fun d m' hdm hlt => hlast (d + 1) m' (by simpa [List.get?] using hdm) (by omega)
      have htail := ih (k + 1) j' hj2 hlast2
      cases hn : truthy n.id with
      | false =>
        have hmp : mkNodeMapFrom k (n :: rest) = mkNodeMapFrom (k + 1) rest := by
          simp [mkNodeMapFrom, hn]
        rw [hmp, htail]
        congr 2
        omega
      | true =>
        have hmp : mkNodeMapFrom k (n :: rest) =
            (n.id.getD "", safeId k) :: mkNodeMapFrom (k + 1) rest := by
          simp [mkNodeMapFrom, hn]
        rw [hmp, amGet_cons_of_some _ _ _ _ htail]
        congr 2
        omega

theorem edgeLine_dangling (ns : List Node) (e : Edge)
    (h : (∀ p ∈ validNodes ns, p.2.id ≠ e.«from») ∨
         (∀ p ∈ validNodes ns, p.2.id ≠ e.«to»)) :
    edgeLine (mkNodeMap ns) e = "" := by
  unfold edgeLine
  cases hf : truthy e.«from» with
  | false => simp [hf]
  | true =>
    cases ht : truthy e.«to» with
    | false => simp [ht]
    | true =>
      simp only [hf, ht, Bool.and_self, if_true]
      obtain ⟨sf, hsf⟩ : ∃ sf, e.«from» = some sf := by
        cases hef : e.«from» with
        | none => rw [hef] at hf; cases hf
        | some v => exact ⟨v, rfl⟩
      obtain ⟨st, hst⟩ : ∃ st, e.«to» = some st := by
        cases het : e.«to» with
        | none => rw [het] at ht; cases ht
        | some v => exact ⟨v, rfl⟩
      cases h with
      | inl hno =>
        have hnone : amGet (mkNodeMap ns) (e.«from».getD "") = none := by
          cases hg : amGet (mkNodeMap ns) (e.«from».getD "") with
          | none => rfl
          | some v =>
            obtain ⟨d, m, hget, hid, htr, _⟩ := amGet_mkNodeMapFrom_some 0 ns _ _ hg
            have hmem : (d, m) ∈ validNodes ns :=
              (mem_validNodesFrom 0 d m ns).mpr ⟨d, by omega, hget, htr⟩
            have := hno (d, m) hmem
            rw [hsf] at this
            rw [hsf] at hid
            simp only [Option.getD] at hid
            exact absurd hid this
        rw [hnone]
      | inr hno =>
        have hnone : amGet (mkNodeMap ns) (e.«to».getD "") = none := by
          cases hg : amGet (mkNodeMap ns) (e.«to».getD "") with
          | none => rfl
          | some v =>
            obtain ⟨d, m, hget, hid, htr, _⟩ := amGet_mkNodeMapFrom_some 0 ns _ _ hg
            have hmem : (d, m) ∈ validNodes ns :=
              (mem_validNodesFrom 0 d m ns).mpr ⟨d, by omega, hget, htr⟩
            have := hno (d, m) hmem
            rw [hst] at this
            rw [hst] at hid
            simp only [Option.getD] at hid
            exact absurd hid this
        rw [hnone]
        cases amGet (mkNodeMap ns) (e.«from».getD "") <;> rfl

/-- C9: `render(\x7bnodes:[], edges:[]\x7d)` returns the fixed single-placeholder
diagram string exactly, and the same fixed placeholder string is returned
whenever zero nodes are retained after id filtering (every node lacking a
truthy id), overriding anything built in the earlier passes. -/
theorem empty_graph_placeholder (fd : FlowData) :
    generateMermaidDiagram ⟨[], []⟩ = "graph TD\n    Start[Start]"
  ∧ ((∀ n ∈ fd.nodes, truthy n.id = false) →
      generateMermaidDiagram fd = "graph TD\n    Start[Start]") := by
  refine ⟨rfl, fun h => ?_⟩
  simp only [generateMermaidDiagram]
  by_cases h0 : fd.nodes.length = 0
  · rw [if_pos h0]
    rfl
  · rw [if_neg h0]
    have hv : validNodes fd.nodes = [] := validNodesFrom_nil_of_no_id 0 _ h
    rw [hv]
    rfl

theorem empty_graph_placeholder_witness :
    generateMermaidDiagram
      ⟨[⟨none, some "greeting", none, some "Hi", none⟩,
        ⟨some "", some "question", none, some "Q", none⟩],
       [⟨some "a", some "b", none⟩]⟩ = "graph TD\n    Start[Start]" :=
  (empty_graph_placeholder
    ⟨[⟨none, some "greeting", none, some "Hi", none⟩,
      ⟨some "", some "question", none, some "Q", none⟩],
     [⟨some "a", some "b", none⟩]⟩).2 (by decide)

/-- C5: `hasSpeakerSeparation` is true exactly when the utterances
collected across all transcriptions contain more than one distinct
speaker label; when true the conversation text is one
`"Speaker \x7bspeaker\x7d: \x7btext\x7d"` line per utterance in collection order, and
when false (including when there are no utterances at all) it is the
transcriptions' full `text` fields joined with a blank-line separator. -/
theorem speaker_separation_correct (ts : List Transcription) :
    (hasSpeakerSeparation ts = true ↔
      1 < (((allUtterances ts).map Utterance.speaker).eraseDups).length)
  ∧ (hasSpeakerSeparation ts = true →
      buildTranscriptText ts = String.intercalate "\n"
        ((allUtterances ts).map
          (fun u => "Speaker " ++ u.speaker ++ ": " ++ u.text)))
  ∧ (hasSpeakerSeparation ts = false →
      buildTranscriptText ts =
        String.intercalate "\n\n" (ts.map Transcription.text)) := by
  have hiff : hasSpeakerSeparation ts = true ↔
      1 < (((allUtterances ts).map Utterance.speaker).eraseDups).length := by
    unfold hasSpeakerSeparation
    by_cases h : (allUtterances ts).length > 0
    · simp [h]
    · have hnil : allUtterances ts = [] := List.length_eq_zero.mp (by omega)
      rw [if_neg h, hnil]
      simp
      decide
  refine ⟨hiff, fun h => ?_, fun h => ?_⟩
  · have hau : (allUtterances ts).length > 0 := by
      have hlt := hiff.mp h
      by_contra hc
      have hnil : allUtterances ts = [] := List.length_eq_zero.mp (by omega)
      rw [hnil] at hlt
      exact absurd hlt (by decide)
    unfold buildTranscriptText
    simp [hau, h]
  · unfold buildTranscriptText
    simp [h]

theorem speaker_separation_correct_witness :
    hasSpeakerSeparation
      [⟨"f", "t", [⟨"1", "a"⟩, ⟨"2", "b"⟩, ⟨"1", "c"⟩, ⟨"2", "d"⟩], "en"⟩] = true
  ∧ buildTranscriptText
      [⟨"f", "t", [⟨"1", "a"⟩, ⟨"2", "b"⟩, ⟨"1", "c"⟩, ⟨"2", "d"⟩], "en"⟩] =
      "Speaker 1: a\nSpeaker 2: b\nSpeaker 1: c\nSpeaker 2: d"
  ∧ hasSpeakerSeparation
      [⟨"f", "t", [⟨"1", "a"⟩, ⟨"1", "b"⟩, ⟨"1", "c"⟩], "en"⟩] = false
  ∧ buildTranscriptText
      [⟨"f", "tA", [⟨"1", "a"⟩, ⟨"1", "b"⟩], "en"⟩, ⟨"g", "tB", [], "en"⟩] =
      "tA\n\ntB" := by
  refine ⟨(speaker_separation_correct _).1.mpr (by decide), ?_, by decide, ?_⟩
  · have := (speaker_separation_correct
      [⟨"f", "t", [⟨"1", "a"⟩, ⟨"2", "b"⟩, ⟨"1", "c"⟩, ⟨"2", "d"⟩], "en"⟩]).2.1
      (by decide)
    rw [this]
    rfl
  · have := (speaker_separation_correct
      [⟨"f", "tA", [⟨"1", "a"⟩, ⟨"1", "b"⟩], "en"⟩, ⟨"g", "tB", [], "en"⟩]).2.2
      (by decide)
    rw [this]
    rfl

/-- C7: a node's display label is computed from its content (literal
`"Node"` substituted when content is absent or empty) by collapsing
newline/tab runs to single spaces, stripping quotes, stripping the fixed
punctuation blacklist and trimming; the example content renders as
`This is a test ok`, and any sanitized label longer than 30 characters is
emitted as exactly 30 characters ending in `...`. -/
theorem label_sanitization_correct (c : String) :
    mkMainLabel none = "Node"
  ∧ mkMainLabel (some "") = "Node"
  ∧ mkMainLabel (some "This is a \"test\"! <ok>") = "This is a test ok"
  ∧ (30 < (sanitizeText c).length →
      (mkMainLabel (some c)).length = 30 ∧
        ∃ p : String, mkMainLabel (some c) = p ++ "...") := by
  refine ⟨rfl, rfl, rfl, fun h => ?_⟩
  have hc : ¬(c = "") := by
    intro he
    rw [he] at h
    exact absurd h (by decide)
  have h' : 30 < (sanitizeChars c.data).length := h
  have hmn : mkMainLabel (some c) =
      String.mk ((sanitizeChars c.data).take 27) ++ "..." := by
    simp only [mkMainLabel, if_neg hc]
    rw [if_pos h']
  constructor
  · rw [hmn, strLength_append]
    have h27 : ((sanitizeChars c.data).take 27).length = 27 := by
      rw [List.length_take]
      omega
    have hm : (String.mk ((sanitizeChars c.data).take 27)).length =
        ((sanitizeChars c.data).take 27).length := rfl
    rw [hm, h27]
    rfl
  · exact ⟨_, hmn⟩

theorem label_sanitization_correct_witness :
    (mkMainLabel (some "abcdefghijklmnopqrstuvwxyzabcdefghijklmnopqrs")).length = 30
  ∧ ∃ p : String,
      mkMainLabel (some "abcdefghijklmnopqrstuvwxyzabcdefghijklmnopqrs") =
        p ++ "..." :=
  (label_sanitization_correct "abcdefghijklmnopqrstuvwxyzabcdefghijklmnopqrs").2.2.2
    (by decide)


/-- C4: in the id-remapping pass every node lacking a truthy `id` is
skipped entirely; every retained node keeps the position it had in the
original nodes array and is assigned the positional safe identifier
`"N\x7bindex\x7d"`; every emitted node declaration line begins with that
positional identifier, every value in the id table is such a positional
identifier, and the diagram is exactly the header followed by the
retained-node declarations and the edge lines. -/
theorem id_remapping_correct (ns : List Node) (es : List Edge) (i : Nat) (n : Node) :
    (ns.get? i = some n → truthy n.id = false → ∀ m : Node, (i, m) ∉ validNodes ns)
  ∧ (ns.get? i = some n → truthy n.id = true → (i, n) ∈ validNodes ns)
  ∧ (∀ p ∈ validNodes ns, ∃ r : String,
      nodeLine p.2 (safeId p.1) = ("    " ++ safeId p.1) ++ r)
  ∧ (∀ s v, amGet (mkNodeMap ns) s = some v →
      ∃ j m, ns.get? j = some m ∧ m.id = some s ∧ v = safeId j)
  ∧ (0 < (validNodes ns).length →
      generateMermaidDiagram ⟨ns, es⟩ =
        diagramHeader ++
          concatAll ((validNodes ns).map (fun p => nodeLine p.2 (safeId p.1))) ++
          concatAll (es.map (edgeLine (mkNodeMap ns)))) := by
  refine ⟨?_, ?_, ?_, ?_, ?_⟩
  · intro hget hfalse m hmem
    obtain ⟨d, hd, hget', ht⟩ := (mem_validNodesFrom 0 i m ns).mp hmem
    have hdi : d = i := by omega
    rw [hdi] at hget'
    rw [hget] at hget'
    have : n = m := Option.some.inj hget'
    rw [← this] at ht
    rw [ht] at hfalse
    cases hfalse
  · intro hget htrue
    exact (mem_validNodesFrom 0 i n ns).mpr ⟨i, by omega, hget, htrue⟩
  · intro p _
    exact nodeLine_starts p.2 (safeId p.1)
  · intro s v hg
    obtain ⟨d, m, hget, hid, _, hv⟩ := amGet_mkNodeMapFrom_some 0 ns s v hg
    refine ⟨d, m, hget, hid, ?_⟩
    rw [hv]
    congr 1
    omega
  · intro hpos
    have h1 : ¬(ns.length = 0) := by
      intro h0
      have hnil : ns = [] := List.length_eq_zero.mp h0
      rw [hnil] at hpos
      simp [validNodes, validNodesFrom] at hpos
    have h2 : ¬((validNodes ns).length = 0) := by omega
    simp only [generateMermaidDiagram]
    rw [if_neg h1, if_neg h2]

theorem id_remapping_correct_witness :
    (∀ m : Node, (0, m) ∉ validNodes
      [⟨none, none, none, some "skipped", none⟩,
       ⟨some "b", some "greeting", none, some "B", none⟩])
  ∧ (1, (⟨some "b", some "greeting", none, some "B", none⟩ : Node)) ∈ validNodes
      [⟨none, none, none, some "skipped", none⟩,
       ⟨some "b", some "greeting", none, some "B", none⟩]
  ∧ (∃ j m, [(⟨none, none, none, some "skipped", none⟩ : Node),
       ⟨some "b", some "greeting", none, some "B", none⟩].get? j = some m ∧
       m.id = some "b" ∧ safeId 1 = safeId j)
  ∧ generateMermaidDiagram
      ⟨[⟨none, none, none, some "skipped", none⟩,
        ⟨some "b", some "greeting", none, some "B", none⟩], []⟩ =
      diagramHeader ++
        concatAll ((validNodes
          [⟨none, none, none, some "skipped", none⟩,
           ⟨some "b", some "greeting", none, some "B", none⟩]).map
          (fun p => nodeLine p.2 (safeId p.1))) ++
        concatAll (([] : List Edge).map (edgeLine (mkNodeMap
          [⟨none, none, none, some "skipped", none⟩,
           ⟨some "b", some "greeting", none, some "B", none⟩]))) := by
  refine ⟨?_, ?_, ?_, ?_⟩
  · exact (id_remapping_correct
      [⟨none, none, none, some "skipped", none⟩,
       ⟨some "b", some "greeting", none, some "B", none⟩] [] 0
      ⟨none, none, none, some "skipped", none⟩).1 rfl rfl
  · exact (id_remapping_correct
      [⟨none, none, none, some "skipped", none⟩,
       ⟨some "b", some "greeting", none, some "B", none⟩] [] 1
      ⟨some "b", some "greeting", none, some "B", none⟩).2.1 rfl rfl
  · exact (id_remapping_correct
      [⟨none, none, none, some "skipped", none⟩,
       ⟨some "b", some "greeting", none, some "B", none⟩] [] 0
      ⟨none, none, none, some "skipped", none⟩).2.2.2.1 "b" (safeId 1) rfl
  · exact (id_remapping_correct
      [⟨none, none, none, some "skipped", none⟩,
       ⟨some "b", some "greeting", none, some "B", none⟩] [] 0
      ⟨none, none, none, some "skipped", none⟩).2.2.2.2 (by decide)

/-- C8: an edge whose `from` or `to` value does not equal the id of any
retained node is silently omitted from the diagram, and omitting it
changes nothing else in the output: the diagram with that edge equals the
diagram without it (in particular the node-declaration portion is
unchanged), and no error is raised — the renderer is a total function. -/
theorem dangling_edge_safe (ns : List Node) (es1 es2 : List Edge) (e : Edge)
    (h : (∀ p ∈ validNodes ns, p.2.id ≠ e.«from») ∨
         (∀ p ∈ validNodes ns, p.2.id ≠ e.«to»)) :
    generateMermaidDiagram ⟨ns, es1 ++ e :: es2⟩ =
      generateMermaidDiagram ⟨ns, es1 ++ es2⟩ := by
  have he : edgeLine (mkNodeMap ns) e = "" := edgeLine_dangling ns e h
  simp only [generateMermaidDiagram]
  by_cases h0 : ns.length = 0
  · rw [if_pos h0, if_pos h0]
  · rw [if_neg h0, if_neg h0]
    by_cases h1 : (validNodes ns).length = 0
    · rw [if_pos h1, if_pos h1]
    · rw [if_neg h1, if_neg h1]
      have hed : concatAll ((es1 ++ e :: es2).map (edgeLine (mkNodeMap ns))) =
          concatAll ((es1 ++ es2).map (edgeLine (mkNodeMap ns))) := by
        rw [List.map_append, List.map_append, concatAll_append, concatAll_append]
        show _ ++ (edgeLine (mkNodeMap ns) e ++ _) = _
        rw [he, strEmpty_append]
      rw [hed]

theorem dangling_edge_safe_witness :
    generateMermaidDiagram
      ⟨[⟨some "node1", some "greeting", none, some "Hi", none⟩],
       [⟨some "x", some "node1", none⟩]⟩ =
    generateMermaidDiagram
      ⟨[⟨some "node1", some "greeting", none, some "Hi", none⟩], []⟩ :=
  dangling_edge_safe [⟨some "node1", some "greeting", none, some "Hi", none⟩]
    [] [] ⟨some "x", some "node1", none⟩ (Or.inl (by decide))

/-- C10: when two retained nodes share the same original id, both still
get a node declaration (both are in the retained set at their original
positions), but the id table maps that id to the safe id of the last such
node in array order, so an edge between the duplicated id is drawn to and
from the last occurrence only. -/
theorem duplicate_id_last_wins (ns : List Node) (i j : Nat) (n m : Node)
    (s : String) (e : Edge)
    (hi : ns.get? i = some n) (hj : ns.get? j = some m)
    (hn : n.id = some s) (hm : m.id = some s) (hs : s ≠ "")
    (hlast : ∀ d m', ns.get? d = some m' → j < d → m'.id ≠ some s) :
    amGet (mkNodeMap ns) s = some (safeId j)
  ∧ (i, n) ∈ validNodes ns
  ∧ (j, m) ∈ validNodes ns
  ∧ (e.«from» = some s → e.«to» = some s → e.condition = none →
      edgeLine (mkNodeMap ns) e =
        "    " ++ safeId j ++ " --> " ++ safeId j ++ "\n") := by
  have hsb : (s != "") = true := bne_iff_ne.mpr hs
  have hget : amGet (mkNodeMap ns) s = some (safeId j) := by
    have hl := amGet_mkNodeMapFrom_last 0 j ns m s hj hm hs hlast
    unfold mkNodeMap
    rw [hl]
    congr 2
    omega
  refine ⟨hget, ?_, ?_, ?_⟩
  · refine (mem_validNodesFrom 0 i n ns).mpr ⟨i, by omega, hi, ?_⟩
    rw [hn]
    simp [truthy, hsb]
  · refine (mem_validNodesFrom 0 j m ns).mpr ⟨j, by omega, hj, ?_⟩
    rw [hm]
    simp [truthy, hsb]
  · intro hf ht hc
    unfold edgeLine
    rw [hf, ht, hc]
    simp only [truthy, hsb, Bool.and_self, if_true, Option.getD]
    rw [hget]

theorem duplicate_id_last_wins_witness :
    amGet (mkNodeMap
      [⟨some "a", none, none, some "first", none⟩,
       ⟨some "a", none, none, some "second", none⟩]) "a" = some (safeId 1)
  ∧ edgeLine (mkNodeMap
      [⟨some "a", none, none, some "first", none⟩,
       ⟨some "a", none, none, some "second", none⟩])
      ⟨some "a", some "a", none⟩ =
      "    " ++ safeId 1 ++ " --> " ++ safeId 1 ++ "\n" := by
  have hlast : ∀ d m', [(⟨some "a", none, none, some "first", none⟩ : Node),
      ⟨some "a", none, none, some "second", none⟩].get? d = some m' →
      1 < d → m'.id ≠ some "a" := by
    intro d m' hdm hd
    cases d with
    | zero => omega
    | succ d1 =>
      cases d1 with
      | zero => omega
      | succ d2 => simp [List.get?] at hdm
  have happ := duplicate_id_last_wins
    [⟨some "a", none, none, some "first", none⟩,
     ⟨some "a", none, none, some "second", none⟩] 0 1
    ⟨some "a", none, none, some "first", none⟩
    ⟨some "a", none, none, some "second", none⟩ "a"
    ⟨some "a", some "a", none⟩ rfl rfl rfl rfl (by decide) hlast
  exact ⟨happ.1, happ.2.2.2 rfl rfl rfl⟩

/-- C1 counterexample: with both generator attempts failing,
`analyzeConversationFlow` returns a single-node flow, not the 3-node
greeting-topic-farewell default skeleton the claim asserts. -/
theorem analyze_both_fail_not_default :
    (analyzeConversationFlow [⟨"a.mp3", "hello", [], "en"⟩] .err .err).nodes.length = 1
  ∧ (analyzeConversationFlow [⟨"a.mp3", "hello", [], "en"⟩] .err .err).nodes ≠
      fallbackFlowData.nodes := by
  exact ⟨rfl, by decide⟩

/-- C1 (amended): if both generator attempts fail and the transcript text
is non-empty, `analyzeConversationFlow` returns the fixed 1-node error
FlowGraph (single `Error Processing` node, no edges) together with the
non-empty diagram `graph TD\n    Error[Error Processing Conversation]`,
and the failure is never surfaced to the caller (the function still
returns a value). -/
theorem analyze_both_fail_error_flow (ts : List Transcription)
    (h : buildTranscriptText ts ≠ "") :
    analyzeConversationFlow ts .err .err = errorFlowOutput
  ∧ errorFlowOutput.mermaidDiagram =
      some "graph TD\n    Error[Error Processing Conversation]"
  ∧ errorFlowOutput.nodes.length = 1 := by
  refine ⟨?_, rfl, rfl⟩
  unfold analyzeConversationFlow
  rw [if_neg h]
  rfl

theorem analyze_both_fail_error_flow_witness :
    analyzeConversationFlow [⟨"b.mp3", "hi", [], "en"⟩] .err .err =
      errorFlowOutput :=
  (analyze_both_fail_error_flow [⟨"b.mp3", "hi", [], "en"⟩] (by decide)).1

/-- C2 counterexample: when the generator call succeeds but its output is
unparseable, the returned value has no `mermaidDiagram` field at all,
refuting the claim that every returned value carries a non-empty one. -/
theorem analyze_parse_failure_no_diagram :
    (analyzeConversationFlow [⟨"a.mp3", "hello", [], "en"⟩]
      (.ok "not json at all") .err).mermaidDiagram = none := rfl

/-- C2 (amended): every value returned by `analyzeConversationFlow`
carries a non-empty `mermaidDiagram` string, except on the path where a
generator call succeeded but both parse stages failed: that path returns
the fixed 3-node fallback FlowGraph with no `mermaidDiagram` field. -/
theorem analyze_diagram_presence (ts : List Transcription) (p f : GenOutcome) :
    (∃ d, (analyzeConversationFlow ts p f).mermaidDiagram = some d ∧ d ≠ "")
  ∨ analyzeConversationFlow ts p f = fallbackFlowOutput := by
  unfold analyzeConversationFlow
  by_cases h0 : buildTranscriptText ts = ""
  · rw [if_pos h0]
    exact Or.inl ⟨_, rfl, by decide⟩
  · rw [if_neg h0]
    cases hg : genContent p f with
    | none => exact Or.inl ⟨_, rfl, by decide⟩
    | some content =>
      show (∃ d, (interpretContent content).mermaidDiagram = some d ∧ d ≠ "") ∨
        interpretContent content = fallbackFlowOutput
      unfold interpretContent
      cases hp : parseFlowData content with
      | none => exact Or.inr rfl
      | some fd =>
        exact Or.inl ⟨generateMermaidDiagram fd, rfl,
          generateMermaidDiagram_ne_empty fd⟩

/-- C3: when direct JSON parsing of the generator text fails, the
interpreter parses the substring spanning from the first left brace to
the last right brace of that text (the extraction yields a brace-delimited
substring with no left brace before it and no right brace after it); a
parseable embedded object is accepted as the flow data, and only when
this extraction also fails to parse does the interpreter return the fixed
3-node default FlowGraph — demonstrated on the prose-wrapped example. -/
theorem parse_repair_correct (content : String) (ts : List Transcription)
    (f : GenOutcome) :
    (jsonParse content = none →
      parseFlowData content =
        (extractBraces content).bind (fun t => (jsonParse t).map jsonToFlowData))
  ∧ (∀ t, extractBraces content = some t →
      ∃ pre post : List Char,
        content.data = pre ++ t.data ++ post ∧
        (∀ c ∈ pre, c ≠ lbrace) ∧ (∀ c ∈ post, c ≠ rbrace) ∧
        t.data.head? = some lbrace ∧ t.data.getLast? = some rbrace)
  ∧ (jsonParse content = none →
      (extractBraces content).bind (fun t => jsonParse t) = none →
      buildTranscriptText ts ≠ "" →
      analyzeConversationFlow ts (.ok content) f = fallbackFlowOutput)
  ∧ fallbackFlowOutput.nodes.length = 3
  ∧ parseFlowData "Sure, here is the flow:\n\x7b\"nodes\":[\x7b\"id\":\"node1\",\"type\":\"greeting\",\"content\":\"Hello\"\x7d],\"edges\":[]\x7d\nHope this helps!" =
      some ⟨[⟨some "node1", some "greeting", none, some "Hello", none⟩], []⟩ := by
  refine ⟨?_, ?_, ?_, rfl, rfl⟩
  · intro h
    unfold parseFlowData
    rw [h]
    cases he : extractBraces content with
    | none => rfl
    | some t => rfl
  · intro t ht
    simp only [extractBraces] at ht
    cases hdrop : content.data.dropWhile (fun c => c != lbrace) with
    | nil => rw [hdrop] at ht; simp [List.isEmpty] at ht
    | cons c rest =>
      rw [hdrop] at ht
      cases hdrop2 : (c :: rest).reverse.dropWhile (fun d => d != rbrace) with
      | nil => rw [hdrop2] at ht; simp [List.isEmpty] at ht
      | cons r rs =>
        rw [hdrop2] at ht
        simp only [List.isEmpty, if_false, Bool.false_eq_true] at ht
        have htd : t.data = (r :: rs).reverse := by
          have := Option.some.inj ht
          rw [← this]
        have hc : c = lbrace := by
          have := dropWhile_head_not _ _ _ _ hdrop
          simpa using this
        have hr : r = rbrace := by
          have := dropWhile_head_not _ _ _ _ hdrop2
          simpa using this
        refine ⟨content.data.takeWhile (fun c => c != lbrace),
          ((c :: rest).reverse.takeWhile (fun d => d != rbrace)).reverse,
          ?_, ?_, ?_, ?_, ?_⟩
        · have h1 : content.data.takeWhile (fun c => c != lbrace) ++ (c :: rest) =
              content.data := by
            rw [← hdrop]
            exact List.takeWhile_append_dropWhile _ _
          have h2 : (c :: rest).reverse.takeWhile (fun d => d != rbrace) ++ (r :: rs) =
              (c :: rest).reverse := by
            rw [← hdrop2]
            exact List.takeWhile_append_dropWhile _ _
          have h3 : c :: rest =
              (r :: rs).reverse ++
                ((c :: rest).reverse.takeWhile (fun d => d != rbrace)).reverse := by
            have := congrArg List.reverse h2
            rw [List.reverse_append, List.reverse_reverse] at this
            exact this.symm
          rw [htd, List.append_assoc, ← h3]
          exact h1.symm
        · intro x hx
          have := List.mem_takeWhile_imp hx
          exact bne_iff_ne.mp this
        · intro x hx
          rw [List.mem_reverse] at hx
          have := List.mem_takeWhile_imp hx
          exact bne_iff_ne.mp this
        · have h2 : (c :: rest).reverse.takeWhile (fun d => d != rbrace) ++ (r :: rs) =
              (c :: rest).reverse := by
            rw [← hdrop2]
            exact List.takeWhile_append_dropWhile _ _
          have h3 : c :: rest =
              (r :: rs).reverse ++
                ((c :: rest).reverse.takeWhile (fun d => d != rbrace)).reverse := by
            have := congrArg List.reverse h2
            rw [List.reverse_append, List.reverse_reverse] at this
            exact this.symm
          rw [htd]
          cases hrev : (r :: rs).reverse with
          | nil =>
            have : (r :: rs).length = 0 := by
              rw [← List.length_reverse, hrev]
              rfl
            simp at this
          | cons x xs =>
            rw [hrev] at h3
            have hxc : x = c := by
              have := congrArg List.head? h3
              simpa using this.symm
            rw [List.head?]
            rw [hxc, hc]
        · rw [htd, List.getLast?_reverse]
          rw [List.head?, hr]
  · intro h1 h2 h3
    have hpf : parseFlowData content = none := by
      unfold parseFlowData
      rw [h1]
      show (match extractBraces content with
        | some sub => (jsonParse sub).map jsonToFlowData
        | none => none) = none
      cases he : extractBraces content with
      | none => rfl
      | some t =>
        rw [he] at h2
        simp only [Option.bind] at h2
        show Option.map jsonToFlowData (jsonParse t) = none
        rw [h2]
        rfl
    unfold analyzeConversationFlow
    rw [if_neg h3]
    show interpretContent content = fallbackFlowOutput
    unfold interpretContent
    rw [hpf]

theorem parse_repair_correct_witness :
    analyzeConversationFlow [⟨"a.mp3", "hola", [], "en"⟩]
      (.ok "no json here") .err = fallbackFlowOutput :=
  (parse_repair_correct "no json here" [⟨"a.mp3", "hola", [], "en"⟩] .err).2.2.1
    rfl rfl (by decide)

/-- C6: role inference runs only when there is no speaker separation and
the text is non-empty; each retained fragment is labelled by priority —
an agent-pattern match gives `Agent`, otherwise a customer-pattern match
gives `Customer`, otherwise the label alternates by fragment index (even
`Agent`, odd `Customer`); in particular
`This is Sarah calling from Acme.` classifies as Agent and
`Yes, no problem.` classifies as Customer. -/
theorem role_inference_correct (s : String) (i : Nat) (ts : List Transcription) :
    (agentPatternMatch s = true → inferSpeaker s i = "Agent")
  ∧ (agentPatternMatch s = false → customerPatternMatch s = true →
      inferSpeaker s i = "Customer")
  ∧ (agentPatternMatch s = false → customerPatternMatch s = false →
      inferSpeaker s i = (if i % 2 = 0 then "Agent" else "Customer"))
  ∧ (hasSpeakerSeparation ts = false → buildTranscriptText ts ≠ "" →
      normalizedText ts = inferRoles (buildTranscriptText ts))
  ∧ inferRoles "This is Sarah calling from Acme. Yes, no problem." =
      "Agent: This is Sarah calling from Acme\nCustomer: Yes, no problem"
  ∧ inferSpeaker "This is Sarah calling from Acme" i = "Agent"
  ∧ inferSpeaker "Yes, no problem" i = "Customer" := by
  refine ⟨?_, ?_, ?_, ?_, rfl, ?_, ?_⟩
  · intro h
    simp [inferSpeaker, h]
  · intro h1 h2
    simp [inferSpeaker, h1, h2]
  · intro h1 h2
    simp [inferSpeaker, h1, h2]
  · intro h1 h2
    simp [normalizedText, h1, h2]
  · have h : agentPatternMatch "This is Sarah calling from Acme" = true := rfl
    simp [inferSpeaker, h]
  · have h1 : agentPatternMatch "Yes, no problem" = false := rfl
    have h2 : customerPatternMatch "Yes, no problem" = true := rfl
    simp [inferSpeaker, h1, h2]

theorem role_inference_correct_witness :
    inferSpeaker "the weather report" 1 =
      (if 1 % 2 = 0 then "Agent" else "Customer") :=
  (role_inference_correct "the weather report" 1 []).2.2.1 rfl rfl
